import Mathlib

/-
  Verification of the tiny-shell-rs core against its specification.

  The definitions below are a shallow embedding of the Rust sources:
  * src/lexer/token.rs, src/lexer/lexer.rs, src/lexer/mod.rs   (lexing)
  * src/parser/mod.rs, src/parser/default.rs, src/ast.rs        (parsing)
  * src/executor/recursive_executor/recursive_executor.rs,
    src/executor/flatten_executor/flatten_executor.rs,
    src/executor/pipeline.rs, src/executor/executor.rs          (execution)
  * src/executor/builtin/commands.rs                            (exit built-in)
  * src/history.rs                                              (history)

  Machine strings are modelled as Lean `String` / `List Char`; `usize`
  positions as `Nat`; `i32` exit codes as `Int` (the shell only moves them
  around and compares them, so no wrap-around arithmetic occurs).
-/

namespace TinyShell

/-! ## Tokens (src/lexer/token.rs)

`TokenKind` keeps the variants that the lexer and the parser actually use.
`notImplemented` models the `TokenKind::NotImplemented` variant that
src/lexer/lexer.rs emits for a single ampersand. -/

inductive TokenKind where
  | word
  | pipe
  | and
  | or
  | redirectIn
  | redirectOut
  | redirectAppend
  | semicolon
  | lparen
  | rparen
  | singleQuote
  | doubleQuote
  | notImplemented
  | eof
deriving DecidableEq, Repr

/-- Token from src/lexer/token.rs: `{kind, lexeme, span}` with a half-open
byte-position span `[start, end)`; the lexer in src/lexer/lexer.rs actually
fills the span with indices into the `Vec<char>` of the input. -/
structure Token where
  kind : TokenKind
  lexeme : String
  span : Nat × Nat
deriving DecidableEq, Repr

/-- LexError from src/lexer/lexer.rs. -/
inductive LexError where
  | unexpectedChar (c : Char) (pos : Nat)
  | unterminatedQuote (q : Char) (pos : Nat)
deriving DecidableEq, Repr

/-! ## Rust byte-slice semantics

`Lexer::next_token` (src/lexer/lexer.rs) walks a `Vec<char>` with a char
index `self.pos`, but extracts quoted lexemes with `self.input[start..self.pos]`,
which slices the backing `str` at *byte* offsets and panics when an offset is
not a character boundary.  The helpers below reproduce that: `byteSlice` is
`some` exactly when both offsets are char boundaries and in range. -/

/-- Number of bytes of the UTF-8 encoding of a scalar value. -/
def utf8Len (c : Char) : Nat :=
  if c.val < 0x80 then 1
  else if c.val < 0x800 then 2
  else if c.val < 0x10000 then 3
  else 4

/-- Drop exactly `n` leading bytes from a char list; `none` when `n` falls
inside the encoding of a character (a Rust slice would panic there). -/
def byteDrop : List Char → Nat → Option (List Char)
  | s, 0 => some s
  | [], _ + 1 => none
  | c :: cs, n + 1 =>
    if utf8Len c ≤ n + 1 then byteDrop cs (n + 1 - utf8Len c) else none

/-- Take exactly `n` leading bytes from a char list; `none` when `n` falls
inside the encoding of a character or past the end. -/
def byteTake : List Char → Nat → Option (List Char)
  | _, 0 => some []
  | [], _ + 1 => none
  | c :: cs, n + 1 =>
    if utf8Len c ≤ n + 1 then (byteTake cs (n + 1 - utf8Len c)).map (c :: ·) else none

/-- Rust `&input[a..b]` on the UTF-8 string whose chars are `s`:
`some` of the sliced chars when `a ≤ b`, both offsets are char boundaries and
`b` is within the string; `none` models the panic. -/
def byteSlice (s : List Char) (a b : Nat) : Option (List Char) :=
  if a ≤ b then (byteDrop s a).bind (fun t => byteTake t (b - a)) else none

/-! ## The lexer of src/lexer/lexer.rs -/

/-- Offset of the first occurrence of `q` in the list, if any
(the closing-quote scan of `next_token`). -/
def findClose (q : Char) : List Char → Option Nat
  | [] => none
  | c :: rest => if c = q then some 0 else (findClose q rest).map (· + 1)

/-- Result of one `next_token` call: `panicked` models a Rust panic,
`fail` is `Err(LexError)`, `emit t p` is `Ok(Some(t))` with the cursor left
at `p`, and `nothing p` is `Ok(None)` (dead code in the source: the scan
loop only exits at the end of input). -/
inductive NextTok where
  | panicked
  | fail (e : LexError)
  | emit (t : Token) (pos : Nat)
  | nothing (pos : Nat)
deriving DecidableEq, Repr

/-- The pending word flushed as a `Word` token (the source's repeated
`if !buf.is_empty() { return Ok(Some(word)) }` idiom in the operator arms:
the operator character itself is not consumed). -/
def flushOr (buf : List Char) (tokenStart pos : Nat) (tok : NextTok) : NextTok :=
  if buf ≠ [] then .emit ⟨.word, String.mk buf, (tokenStart, pos)⟩ pos else tok

/-- The `|` arm: `Or` when another `|` follows, else `Pipe`. -/
def pipeArm (rest : List Char) (pos : Nat) : NextTok :=
  if rest.head? = some '|' then .emit ⟨.or, "||", (pos, pos + 2)⟩ (pos + 2)
  else .emit ⟨.pipe, "|", (pos, pos + 1)⟩ (pos + 1)

/-- The `&` arm: `And` when another `&` follows, else the
`NotImplemented` token for a single ampersand. -/
def ampArm (rest : List Char) (pos : Nat) : NextTok :=
  if rest.head? = some '&' then .emit ⟨.and, "&&", (pos, pos + 2)⟩ (pos + 2)
  else .emit ⟨.notImplemented, "&", (pos, pos + 1)⟩ (pos + 1)

/-- A one-character operator token. -/
def opArm (kind : TokenKind) (lexeme : String) (pos : Nat) : NextTok :=
  .emit ⟨kind, lexeme, (pos, pos + 1)⟩ (pos + 1)

/-- A quote arm (`'` or `"`): scan for the closing quote; the lexeme is cut
out of the original input with a byte slice at char offsets — `none` there
is the Rust panic.  Note that both quote styles emit a plain `Word` and
that a pending word buffer is silently dropped. -/
def quoteArm (chars rest : List Char) (pos : Nat) (q : Char) : NextTok :=
  match findClose q rest with
  | some k =>
    match byteSlice chars (pos + 1) (pos + 1 + k) with
    | some content => .emit ⟨.word, String.mk content, (pos + 1, pos + 1 + k)⟩ (pos + 1 + k + 1)
    | none => .panicked
  | none => .fail (.unterminatedQuote q pos)

/-- The scan loop of `Lexer::next_token` (src/lexer/lexer.rs, lines 45-281).
`chars` is the whole input, `rest` the suffix from the cursor `pos`
(callers maintain `rest = chars.drop pos`), `buf` the pending word buffer and
`tokenStart` its start position. -/
def nextTokenLoop (chars : List Char) : List Char → Nat → List Char → Nat → NextTok
  | [], pos, buf, tokenStart =>
    -- after the loop: flush a pending word, else emit Eof (Ok(None) is dead)
    if buf ≠ [] then .emit ⟨.word, String.mk buf, (tokenStart, pos)⟩ pos
    else if pos ≥ chars.length then .emit ⟨.eof, "", (pos, pos)⟩ pos
    else .nothing pos
  | c :: rest, pos, buf, tokenStart =>
    if c = ' ' ∨ c = '\t' ∨ c = '\n' then
      if buf ≠ [] then .emit ⟨.word, String.mk buf, (tokenStart, pos)⟩ (pos + 1)
      else nextTokenLoop chars rest (pos + 1) buf tokenStart
    else if c = '|' then flushOr buf tokenStart pos (pipeArm rest pos)
    else if c = '&' then flushOr buf tokenStart pos (ampArm rest pos)
    else if c = '>' then flushOr buf tokenStart pos (opArm .redirectOut ">" pos)
    else if c = '<' then flushOr buf tokenStart pos (opArm .redirectIn "<" pos)
    else if c = ';' then flushOr buf tokenStart pos (opArm .semicolon ";" pos)
    else if c = '(' then flushOr buf tokenStart pos (opArm .lparen "(" pos)
    else if c = ')' then flushOr buf tokenStart pos (opArm .rparen ")" pos)
    else if c = '\'' then quoteArm chars rest pos '\''
    else if c = '"' then quoteArm chars rest pos '"'
    else
      nextTokenLoop chars rest (pos + 1) (buf ++ [c]) (if buf = [] then pos else tokenStart)

/-- One `next_token` call with the cursor at `pos` (fresh word buffer,
`token_start = self.pos`). -/
def nextToken (chars : List Char) (pos : Nat) : NextTok :=
  nextTokenLoop chars (chars.drop pos) pos [] pos

/-- Result of `Lexer::tokenize_all`: a token list, a lex error, or a panic.
`truncated` is the fuel-exhaustion artifact of the embedding; it is never
produced for fuel ≥ length + 1 because every non-Eof token advances the
cursor. -/
inductive LexTokens where
  | panicked
  | fail (e : LexError)
  | tokens (ts : List Token)
  | truncated (ts : List Token)
deriving DecidableEq, Repr

/-- The collection loop of `Lexer::tokenize_all` (src/lexer/lexer.rs,
lines 283-298), with fuel standing in for the loop's termination measure. -/
def tokenizeAllFuel (chars : List Char) : Nat → Nat → LexTokens
  | 0, _ => .truncated []
  | fuel + 1, pos =>
    match nextToken chars pos with
    | .panicked => .panicked
    | .fail e => .fail e
    | .nothing _ => .tokens []
    | .emit t p =>
      if t.kind = .eof then .tokens [t]
      else
        match tokenizeAllFuel chars fuel p with
        | .panicked => .panicked
        | .fail e => .fail e
        | .tokens ts => .tokens (t :: ts)
        | .truncated ts => .truncated (t :: ts)

/-- `Lexer::tokenize_all` on a whole input line. -/
def lexTokenizeAll (chars : List Char) : LexTokens :=
  tokenizeAllFuel chars (chars.length + 1) 0

/-! ## The draft lexer of src/lexer/mod.rs (`Lexer::tokenize`) -/

/-- The inner quote scan of src/lexer/mod.rs: returns the quoted content and
the number of consumed characters (including the closing quote if found). -/
def modScanQuote (q : Char) : List Char → List Char × Nat
  | [] => ([], 0)
  | c :: rest =>
    if c = q then ([], 1)
    else
      let (cs, k) := modScanQuote q rest
      (c :: cs, k + 1)

/-- Flush the pending word buffer as a `Word` token (the repeated
`if !buf.is_empty() { tokens.push(..); buf.clear(); }` idiom). -/
def flushWord (acc : List Token) (buf : List Char) (tokenStart pos : Nat) : List Token :=
  if buf ≠ [] then acc ++ [⟨.word, String.mk buf, (tokenStart, pos)⟩] else acc

/-- The `|` arm of the draft lexer: the pushed token and the consumed
suffix/position. -/
def modPipeStep (rs : List Char) (pos : Nat) : Token × Nat × List Char :=
  match rs with
  | '|' :: rs2 => (⟨.or, "||", (pos, pos + 2)⟩, pos + 2, rs2)
  | _ => (⟨.pipe, "|", (pos, pos + 1)⟩, pos + 1, rs)

/-- The `&` arm of the draft lexer: `&&` pushes an `And` token, a single
`&` pushes nothing. -/
def modAmpStep (rs : List Char) (pos : Nat) : List Token × Nat × List Char :=
  match rs with
  | '&' :: rs2 => ([⟨.and, "&&", (pos, pos + 2)⟩], pos + 2, rs2)
  | _ => ([], pos + 1, rs)

/-- The single scan loop of `Lexer::tokenize` in src/lexer/mod.rs
(lines 24-224).  This draft lexer is total (it returns `Ok` on every input);
fuel is an embedding artifact and `none` is never returned for
fuel ≥ length + 1. -/
def modTokenizeLoop : Nat → List Char → Nat → List Char → Nat → List Token → Option (List Token)
  | 0, _, _, _, _, _ => none
  | _ + 1, [], pos, buf, tokenStart, acc =>
    some (flushWord acc buf tokenStart pos ++ [⟨.eof, "", (pos, pos)⟩])
  | fuel + 1, c :: rs, pos, buf, tokenStart, acc =>
    if c = ' ' ∨ c = '\t' ∨ c = '\n' then
      modTokenizeLoop fuel rs (pos + 1) [] tokenStart (flushWord acc buf tokenStart pos)
    else if c = '|' then
      modTokenizeLoop fuel (modPipeStep rs pos).2.2 (modPipeStep rs pos).2.1 [] tokenStart
        (flushWord acc buf tokenStart pos ++ [(modPipeStep rs pos).1])
    else if c = '&' then
      modTokenizeLoop fuel (modAmpStep rs pos).2.2 (modAmpStep rs pos).2.1 [] tokenStart
        (flushWord acc buf tokenStart pos ++ (modAmpStep rs pos).1)
    else if c = '>' then
      modTokenizeLoop fuel rs (pos + 1) [] tokenStart
        (flushWord acc buf tokenStart pos ++ [⟨.redirectOut, ">", (pos, pos + 1)⟩])
    else if c = '<' then
      modTokenizeLoop fuel rs (pos + 1) [] tokenStart
        (flushWord acc buf tokenStart pos ++ [⟨.redirectIn, "<", (pos, pos + 1)⟩])
    else if c = ';' then
      modTokenizeLoop fuel rs (pos + 1) [] tokenStart
        (flushWord acc buf tokenStart pos ++ [⟨.semicolon, ";", (pos, pos + 1)⟩])
    else if c = '(' then
      modTokenizeLoop fuel rs (pos + 1) [] tokenStart
        (flushWord acc buf tokenStart pos ++ [⟨.lparen, "(", (pos, pos + 1)⟩])
    else if c = ')' then
      modTokenizeLoop fuel rs (pos + 1) [] tokenStart
        (flushWord acc buf tokenStart pos ++ [⟨.rparen, ")", (pos, pos + 1)⟩])
    else if c = '"' ∨ c = '\'' then
      -- note: this draft does not flush the word buffer before a quote
      modTokenizeLoop fuel (rs.drop (modScanQuote c rs).2) (pos + 1 + (modScanQuote c rs).2) buf
        tokenStart
        (acc ++ [⟨if c = '"' then .doubleQuote else .singleQuote,
          String.mk (modScanQuote c rs).1, (pos, pos + 1 + (modScanQuote c rs).2)⟩])
    else
      modTokenizeLoop fuel rs (pos + 1) (buf ++ [c]) (if buf = [] then pos else tokenStart) acc

/-- `Lexer::tokenize` of src/lexer/mod.rs on a whole line. -/
def modTokenize (chars : List Char) : Option (List Token) :=
  modTokenizeLoop (chars.length + 1) chars 0 [] 0 []

/-! ## AST (src/ast.rs, in the vector shape built by src/parser/default.rs)

src/ast.rs declares `Pipeline`/`Sequence` with two boxed children, while
src/parser/default.rs and src/executor/recursive_executor/recursive_executor.rs
construct and match them with a `Vec` of children.  `AstNode` below is the
vector shape (parser and recursive executor); `AstB` further down is the
binary shape of src/ast.rs used by
src/executor/flatten_executor/flatten_executor.rs.  `Compound` is omitted:
the parser and the expander never produce it. -/

inductive CommandKind where
  | simple
  | builtin
  | external
deriving DecidableEq, Repr

structure CommandNode where
  name : String
  args : List String
  kind : CommandKind
deriving DecidableEq, Repr

/-- RedirectKind: src/ast.rs has `In`/`Out` (with `Append` commented out);
the executor draft src/executor/flatten_executor/flatten_executor.rs still
matches an `Append` variant, so it is kept here. -/
inductive RedirectKind where
  | rIn
  | rOut
  | append
deriving DecidableEq, Repr

inductive AstNode where
  | command (cmd : CommandNode)
  | pipeline (children : List AstNode)
  | redirect (node : AstNode) (kind : RedirectKind) (file : String)
  | sequence (children : List AstNode)
  | and (left right : AstNode)
  | or (left right : AstNode)
  | subshell (inner : AstNode)
deriving Repr

/-- ParseError from src/parser/mod.rs.  `outOfFuel` is the fuel-exhaustion
artifact of the embedding; it is never returned for sufficiently large fuel
and no theorem below depends on it. -/
inductive ParseError where
  | unexpectedEof
  | unexpectedToken (found : String) (expected : List String) (pos : Nat)
  | unmatchedParen (pos : Nat)
  | unclosedQuote (pos : Nat) (quote : Char)
  | emptyInput
  | outOfFuel
deriving DecidableEq, Repr

/-! ## The parser (src/parser/default.rs)

The Rust parser is a struct holding `tokens` and a cursor `pos`; each
function below takes the cursor and returns the value together with the new
cursor.  The mutual recursion of the source is embedded with a structurally
decreasing fuel parameter. -/

/-- Rust `format!("{:?}", kind)` for the token kinds. -/
def kindName : TokenKind → String
  | .word => "Word"
  | .pipe => "Pipe"
  | .and => "And"
  | .or => "Or"
  | .redirectIn => "RedirectIn"
  | .redirectOut => "RedirectOut"
  | .redirectAppend => "RedirectAppend"
  | .semicolon => "Semicolon"
  | .lparen => "LParen"
  | .rparen => "RParen"
  | .singleQuote => "SingleQuote"
  | .doubleQuote => "DoubleQuote"
  | .notImplemented => "NotImplemented"
  | .eof => "Eof"

/-- `DefaultParser::expect_word`: `next()` then match on `Word`. -/
def expectWord (tokens : List Token) (pos : Nat) : Except ParseError String × Nat :=
  match tokens.get? pos with
  | some tok =>
    if tok.kind = .word then (.ok tok.lexeme, pos + 1)
    else (.error (.unexpectedToken (kindName tok.kind) ["Word"] (pos + 1)), pos + 1)
  | none => (.error .emptyInput, pos)

/-- `DefaultParser::consume`: advance over the token if its kind matches. -/
def consume (tokens : List Token) (pos : Nat) (pat : TokenKind) : Bool × Nat :=
  match tokens.get? pos with
  | some tok => if tok.kind = pat then (true, pos + 1) else (false, pos)
  | none => (false, pos)

mutual

/-- `DefaultParser::parse_sequence`. -/
def parseSequence (tokens : List Token) (fuel : Nat) (pos : Nat) :
    Except ParseError AstNode × Nat :=
  match fuel with
  | 0 => (.error .outOfFuel, pos)
  | fuel + 1 =>
    match parseOr tokens fuel pos with
    | (.error e, p) => (.error e, p)
    | (.ok node, p) => parseSequenceLoop tokens fuel node p
termination_by structural fuel

/-- The `while self.consume(Semicolon)` loop of `parse_sequence`. -/
def parseSequenceLoop (tokens : List Token) (fuel : Nat) (node : AstNode) (pos : Nat) :
    Except ParseError AstNode × Nat :=
  match fuel with
  | 0 => (.error .outOfFuel, pos)
  | fuel + 1 =>
    match consume tokens pos .semicolon with
    | (true, p) =>
      match parseOr tokens fuel p with
      | (.error e, p2) => (.error e, p2)
      | (.ok rhs, p2) => parseSequenceLoop tokens fuel (.sequence [node, rhs]) p2
    | (false, _) => (.ok node, pos)
termination_by structural fuel

/-- `DefaultParser::parse_or`. -/
def parseOr (tokens : List Token) (fuel : Nat) (pos : Nat) :
    Except ParseError AstNode × Nat :=
  match fuel with
  | 0 => (.error .outOfFuel, pos)
  | fuel + 1 =>
    match parseAnd tokens fuel pos with
    | (.error e, p) => (.error e, p)
    | (.ok node, p) => parseOrLoop tokens fuel node p
termination_by structural fuel

/-- The `while self.consume(Or)` loop of `parse_or`. -/
def parseOrLoop (tokens : List Token) (fuel : Nat) (node : AstNode) (pos : Nat) :
    Except ParseError AstNode × Nat :=
  match fuel with
  | 0 => (.error .outOfFuel, pos)
  | fuel + 1 =>
    match consume tokens pos .or with
    | (true, p) =>
      match parseAnd tokens fuel p with
      | (.error e, p2) => (.error e, p2)
      | (.ok rhs, p2) => parseOrLoop tokens fuel (.or node rhs) p2
    | (false, _) => (.ok node, pos)
termination_by structural fuel

/-- `DefaultParser::parse_and`. -/
def parseAnd (tokens : List Token) (fuel : Nat) (pos : Nat) :
    Except ParseError AstNode × Nat :=
  match fuel with
  | 0 => (.error .outOfFuel, pos)
  | fuel + 1 =>
    match parsePipeline tokens fuel pos with
    | (.error e, p) => (.error e, p)
    | (.ok node, p) => parseAndLoop tokens fuel node p
termination_by structural fuel

/-- The `while self.consume(And)` loop of `parse_and`. -/
def parseAndLoop (tokens : List Token) (fuel : Nat) (node : AstNode) (pos : Nat) :
    Except ParseError AstNode × Nat :=
  match fuel with
  | 0 => (.error .outOfFuel, pos)
  | fuel + 1 =>
    match consume tokens pos .and with
    | (true, p) =>
      match parsePipeline tokens fuel p with
      | (.error e, p2) => (.error e, p2)
      | (.ok rhs, p2) => parseAndLoop tokens fuel (.and node rhs) p2
    | (false, _) => (.ok node, pos)
termination_by structural fuel

/-- `DefaultParser::parse_pipeline`. -/
def parsePipeline (tokens : List Token) (fuel : Nat) (pos : Nat) :
    Except ParseError AstNode × Nat :=
  match fuel with
  | 0 => (.error .outOfFuel, pos)
  | fuel + 1 =>
    match parseCommandLike tokens fuel pos with
    | (.error e, p) => (.error e, p)
    | (.ok first, p) => parsePipelineLoop tokens fuel [first] p
termination_by structural fuel

/-- The `while self.consume(Pipe)` loop of `parse_pipeline` plus the final
redirect attachment: a single node is passed to `parse_with_redirect`
unwrapped, several nodes are wrapped in `Pipeline` first. -/
def parsePipelineLoop (tokens : List Token) (fuel : Nat) (nodes : List AstNode) (pos : Nat) :
    Except ParseError AstNode × Nat :=
  match fuel with
  | 0 => (.error .outOfFuel, pos)
  | fuel + 1 =>
    match consume tokens pos .pipe with
    | (true, p) =>
      match parseCommandLike tokens fuel p with
      | (.error e, p2) => (.error e, p2)
      | (.ok rhs, p2) => parsePipelineLoop tokens fuel (nodes ++ [rhs]) p2
    | (false, _) =>
      match nodes with
      | [single] => parseWithRedirect tokens fuel single pos
      | _ => parseWithRedirect tokens fuel (.pipeline nodes) pos
termination_by structural fuel

/-- `DefaultParser::parse_command_like`. -/
def parseCommandLike (tokens : List Token) (fuel : Nat) (pos : Nat) :
    Except ParseError AstNode × Nat :=
  match fuel with
  | 0 => (.error .outOfFuel, pos)
  | fuel + 1 =>
    match consume tokens pos .lparen with
    | (true, p) =>
      match parseSequence tokens fuel p with
      | (.error e, p2) => (.error e, p2)
      | (.ok node, p2) =>
        match consume tokens p2 .rparen with
        | (true, p3) => (.ok (.subshell node), p3)
        | (false, p3) => (.error (.unmatchedParen p3), p3)
    | (false, _) => parseWords tokens fuel [] pos
termination_by structural fuel

/-- The word-collection loop of `parse_command_like`: gather consecutive
`Word` lexemes; the first is the command name, the rest the arguments. -/
def parseWords (tokens : List Token) (fuel : Nat) (args : List String) (pos : Nat) :
    Except ParseError AstNode × Nat :=
  match fuel with
  | 0 => (.error .outOfFuel, pos)
  | fuel + 1 =>
    match tokens.get? pos with
    | some tok =>
      if tok.kind = .word then parseWords tokens fuel (args ++ [tok.lexeme]) (pos + 1)
      else
        match args with
        | [] => (.error .emptyInput, pos)
        | name :: rest => (.ok (.command ⟨name, rest, .simple⟩), pos)
    | none =>
      match args with
      | [] => (.error .emptyInput, pos)
      | name :: rest => (.ok (.command ⟨name, rest, .simple⟩), pos)
termination_by structural fuel

/-- `DefaultParser::parse_with_redirect`: wrap the node with `Redirect`
layers while `>` or `<` follows (there is no `RedirectAppend` case). -/
def parseWithRedirect (tokens : List Token) (fuel : Nat) (node : AstNode) (pos : Nat) :
    Except ParseError AstNode × Nat :=
  match fuel with
  | 0 => (.error .outOfFuel, pos)
  | fuel + 1 =>
    match consume tokens pos .redirectOut with
    | (true, p) =>
      match expectWord tokens p with
      | (.ok file, p2) => parseWithRedirect tokens fuel (.redirect node .rOut file) p2
      | (.error e, p2) => (.error e, p2)
    | (false, _) =>
      match consume tokens pos .redirectIn with
      | (true, p) =>
        match expectWord tokens p with
        | (.ok file, p2) => parseWithRedirect tokens fuel (.redirect node .rIn file) p2
        | (.error e, p2) => (.error e, p2)
      | (false, _) => (.ok node, pos)
termination_by structural fuel

end

/-- Fuel that is ample for any token list: the parser consumes a token every
few nested calls. -/
def parseFuel (tokens : List Token) : Nat := 8 * (tokens.length + 2)

/-- `DefaultParser::parse` (src/parser/default.rs, lines 48-55): empty token
slice is `EmptyInput`, otherwise the result of `parse_sequence` — the final
cursor is dropped and no check for a trailing `Eof` is made. -/
def parse (tokens : List Token) : Except ParseError AstNode :=
  if tokens.isEmpty then .error .emptyInput
  else (parseSequence tokens (parseFuel tokens) 0).1

/-- Shorthand for a simple command node, as the parser builds them. -/
def cmdN (name : String) (args : List String) : AstNode :=
  .command ⟨name, args, .simple⟩

/-- Word and operator tokens as the lexer of src/lexer/lexer.rs emits them
(spans are irrelevant to the parser, which never reads them). -/
def wTok (s : String) : Token := ⟨.word, s, (0, 0)⟩

def opTok (k : TokenKind) (s : String) : Token := ⟨k, s, (0, 0)⟩

/-! ## Executor data types (src/executor/executor.rs) -/

/-- ExecError from src/executor/executor.rs; the `io::Error` payload carries
no information the shell inspects, so `io` is a bare constructor. -/
inductive ExecError where
  | commandNotFound (name : String)
  | io
  | permissionDenied (s : String)
  | invalidArgument (s : String)
  | pipelineError (s : String)
  | redirectError (s : String)
  | subshellError (s : String)
  | noSuchBuiltin (name : String)
  | notImplemented (s : String)
  | custom (s : String)
deriving DecidableEq, Repr

/-- Modelled from the spec: `ExecOutcome ∈ {Code(i32), Exit(i32)}` (§4.3).
The enum is used throughout src (repl.rs, recursive_executor.rs,
builtin/commands.rs) but its declaration is not among the source files. -/
inductive ExecOutcome where
  | code (n : Int)
  | exit (n : Int)
deriving DecidableEq, Repr

/-- The exit code a forked child exits with for a given outcome
(`std::process::exit(exec_fn(node).unwrap_or(1))`; the recursive draft's
outcome-typed results are collapsed to their numeric code). -/
def outcomeCode : ExecOutcome → Int
  | .code n => n
  | .exit n => n

/-- Environment variable record from src/environment.rs. -/
structure EnvVar where
  value : String
  exported : Bool
deriving DecidableEq, Repr

/-- Environment from src/environment.rs (`HashMap<String, Variable>`),
modelled as an association list. -/
abbrev Environment := List (String × EnvVar)

/-- Shell-process state threaded through an executor run: the environment
plus a ghost trace of the commands dispatched in the shell process itself
(built-ins and spawned externals); forked children do not touch it. -/
structure RunState where
  env : Environment
  log : List CommandNode
deriving DecidableEq, Repr

/-- The OS- and command-level behaviour both executors are parameterised
over.  `runR` is `RecursiveExecutor::exec_command`, `runF` is
`FlattenExecutor::exec_command`, `resolve` is `PathResolver::resolve`,
`runPiped c` the waited exit status of a spawned pipeline stage, `openOk`
whether opening a redirect target succeeds, and `runStdio` is the
external-command run of `FlattenExecutor::exec_with_stdio`. -/
structure CmdWorld where
  runR : CommandNode → Environment → Except ExecError ExecOutcome × Environment
  runF : CommandNode → Environment → Except ExecError Int × Environment
  resolve : String → Option String
  runPiped : CommandNode → Int
  openOk : RedirectKind → String → Bool
  runStdio : CommandNode → Environment → Except ExecError Int × Environment

/-! ## RecursiveExecutor (src/executor/recursive_executor/recursive_executor.rs)

`exec` matches `Pipeline`/`Sequence` with a vector of children, i.e. the
`AstNode` shape the parser builds.  The `Pipeline` arm inlines
`PipelineHandler::exec_pipeline_generic` (src/executor/pipeline.rs): fewer
than two stages is an error; otherwise every stage is forked (the child
computes `exec_fn(node)` and exits with `unwrap_or(1)`), the parent waits for
every child, discards the wait statuses and returns `Ok(0)`.  Fork and pipe
failures are OS nondeterminism outside this model (the success path is
modelled). -/

mutual

def recExec (w : CmdWorld) (node : AstNode) (st : RunState) :
    Except ExecError ExecOutcome × RunState :=
  match node with
  | .command c =>
    let (r, e) := w.runR c st.env
    (r, ⟨e, st.log ++ [c]⟩)
  | .redirect inner kind file =>
    -- RedirectHandler::handle_redirect: open the file (Io error on failure),
    -- swap the FD, execute the node, restore the FD
    if w.openOk kind file then recExec w inner st else (.error .io, st)
  | .pipeline nodes =>
    if nodes.length < 2 then (.error (.custom "Pipeline must have at least two commands"), st)
    else
      let _childExits := recChildExits w nodes st
      (.ok (.code 0), st)
  | .sequence seq => recSeq w seq st
  | .and l r =>
    match recExec w l st with
    | (.ok o, st1) => if o = .code 0 then recExec w r st1 else (.ok (.code 1), st1)
    | (.error e, st1) => (.error e, st1)
  | .or l r =>
    match recExec w l st with
    | (.ok o, st1) => if o ≠ .code 0 then recExec w r st1 else (.ok (.code 0), st1)
    | (.error e, st1) => (.error e, st1)
  | .subshell _ => (.error (.notImplemented "Not implemented"), st)
termination_by structural node

/-- The `for node in seq { self.exec(node, env)?; }` loop of the `Sequence`
arm: errors propagate, statuses are discarded, the arm returns `Code(0)`. -/
def recSeq (w : CmdWorld) (seq : List AstNode) (st : RunState) :
    Except ExecError ExecOutcome × RunState :=
  match seq with
  | [] => (.ok (.code 0), st)
  | n :: rest =>
    match recExec w n st with
    | (.ok _, st1) => recSeq w rest st1
    | (.error e, st1) => (.error e, st1)
termination_by structural seq

/-- Exit codes of the forked pipeline children, each started from the
parent state `st` (children do not see each other's effects). -/
def recChildExits (w : CmdWorld) (nodes : List AstNode) (st : RunState) : List Int :=
  match nodes with
  | [] => []
  | n :: rest =>
    (match (recExec w n st).1 with
     | .ok o => outcomeCode o
     | .error _ => 1) :: recChildExits w rest st
termination_by structural nodes

end

/-! ## PipelineHandler::exec_pipeline_generic (src/executor/pipeline.rs) -/

/-- Observable outcome of a pipeline run: the exit codes of the forked
children in start order, the number of children waited on, and the status
returned to the caller. -/
structure PipeRun where
  childExits : List Int
  waited : Nat
  ret : Int
deriving DecidableEq, Repr

/-- `PipelineHandler::exec_pipeline_generic` (src/executor/pipeline.rs,
lines 20-71): fewer than two nodes is a `Custom` error; otherwise each node
is forked in order (the child exits with `exec_fn(node).unwrap_or(1)`), the
parent waits for every child pid in start order, ignores the collected
`status_code`s and returns `Ok(0)`.  The fork/pipe success path is
modelled. -/
def execPipelineGeneric {T : Type} (nodes : List T) (execFn : T → Except ExecError Int) :
    Except ExecError PipeRun :=
  if nodes.length < 2 then .error (.custom "Pipeline must have at least two commands")
  else
    let exits := nodes.map (fun n => match execFn n with | .ok v => v | .error _ => 1)
    .ok { childExits := exits, waited := exits.length, ret := 0 }

/-! ## The binary AST of src/ast.rs, used by the flatten executor -/

inductive AstB where
  | command (cmd : CommandNode)
  | pipeline (left right : AstB)
  | redirect (node : AstB) (kind : RedirectKind) (file : String)
  | sequence (left right : AstB)
  | and (left right : AstB)
  | or (left right : AstB)
  | subshell (inner : AstB)
deriving DecidableEq, Repr

/-- `flatten_pipeline` (src/executor/flatten_executor/flatten_executor.rs,
lines 322-330). -/
def flattenPipeline : AstB → List AstB
  | .pipeline l r => flattenPipeline l ++ flattenPipeline r
  | n => [n]

/-- `FlattenExecutor::prepare_command`: only command nodes with a resolvable
path may be a pipeline stage. -/
def prepareCommand (w : CmdWorld) : AstB → Except ExecError CommandNode
  | .command c =>
    match w.resolve c.name with
    | some _ => .ok c
    | none => .error (.custom "Not found command")
  | _ => .error (.custom "Not a command node")

/-- The spawn loop of `FlattenExecutor::exec_pipeline`: prepare and spawn
each stage in order; a prepare failure aborts with its error; otherwise the
stage statuses are the waited exit codes of the spawned commands. -/
def flatSpawnAll (w : CmdWorld) : List AstB → Except ExecError (List Int)
  | [] => .ok []
  | n :: rest =>
    match prepareCommand w n with
    | .error e => .error e
    | .ok c =>
      match flatSpawnAll w rest with
      | .error e => .error e
      | .ok sts => .ok (w.runPiped c :: sts)

/-- `let mut status = 0; for child in children { status = child.wait()... }`:
the final value is the last status, or 0 when there are no children. -/
def lastStatus (sts : List Int) : Int := sts.foldl (fun _ s => s) 0

/-! ## FlattenExecutor (src/executor/flatten_executor/flatten_executor.rs)

`exec` matches the binary `Pipeline`/`Sequence` of src/ast.rs.  `Compound`
(which the source handles with `unimplemented!()`) is omitted: the parser
and expander never produce it.  In `flatRedirect`, the source case
`_ => self.exec(node, env)` of `exec_with_stdio` is inlined per remaining
constructor so that the recursion stays structural; the bodies are exactly
the corresponding `exec` arms. -/

mutual

def flatExec (w : CmdWorld) (node : AstB) (st : RunState) :
    Except ExecError Int × RunState :=
  match node with
  | .command c =>
    let (r, e) := w.runF c st.env
    (r, ⟨e, st.log ++ [c]⟩)
  | .pipeline l r =>
    match flatSpawnAll w (flattenPipeline (.pipeline l r)) with
    | .error e => (.error e, st)
    | .ok sts => (.ok (lastStatus sts), st)
  | .redirect inner kind file => flatRedirect w [(kind, file)] inner st
  | .sequence l r =>
    match flatExec w l st with
    | (.ok _, st1) => flatExec w r st1
    | (.error e, st1) => (.error e, st1)
  | .and l r =>
    match flatExec w l st with
    | (.ok n, st1) => if n = 0 then flatExec w r st1 else (.ok 1, st1)
    | (.error e, st1) => (.error e, st1)
  | .or l r =>
    match flatExec w l st with
    | (.ok n, st1) => if n ≠ 0 then flatExec w r st1 else (.ok 0, st1)
    | (.error e, st1) => (.error e, st1)
  | .subshell sub =>
    -- exec_subshell: run the inner node on a clone of the environment;
    -- its environment effects are discarded
    let (r, st1) := flatExec w sub st
    (r, ⟨st.env, st1.log⟩)
termination_by structural node

/-- `FlattenExecutor::exec_redirect`: collect the stacked redirects
(`flatten_redirects`), open every file (an open failure is an `Io` error),
then `exec_with_stdio` on the core node: an external command runs with the
swapped stdio (unresolved names print `command not found` and yield 127), a
pipeline core becomes `exec_pipeline_with_redirect`, and any other node is
executed with plain `exec`. -/
def flatRedirect (w : CmdWorld) (redirs : List (RedirectKind × String)) (node : AstB)
    (st : RunState) : Except ExecError Int × RunState :=
  match node with
  | .redirect inner k f => flatRedirect w (redirs ++ [(k, f)]) inner st
  | .command c =>
    if redirs.all (fun kf => w.openOk kf.1 kf.2) then
      match w.resolve c.name with
      | none => (.ok 127, st)
      | some _ =>
        let (r, e) := w.runStdio c st.env
        (r, ⟨e, st.log ++ [c]⟩)
    else (.error .io, st)
  | .pipeline l r =>
    if redirs.all (fun kf => w.openOk kf.1 kf.2) then
      match flatSpawnAll w (flattenPipeline (.pipeline l r)) with
      | .error e => (.error e, st)
      | .ok sts => (.ok (lastStatus sts), st)
    else (.error .io, st)
  | .sequence l r =>
    if redirs.all (fun kf => w.openOk kf.1 kf.2) then
      match flatExec w l st with
      | (.ok _, st1) => flatExec w r st1
      | (.error e, st1) => (.error e, st1)
    else (.error .io, st)
  | .and l r =>
    if redirs.all (fun kf => w.openOk kf.1 kf.2) then
      match flatExec w l st with
      | (.ok n, st1) => if n = 0 then flatExec w r st1 else (.ok 1, st1)
      | (.error e, st1) => (.error e, st1)
    else (.error .io, st)
  | .or l r =>
    if redirs.all (fun kf => w.openOk kf.1 kf.2) then
      match flatExec w l st with
      | (.ok n, st1) => if n ≠ 0 then flatExec w r st1 else (.ok 0, st1)
      | (.error e, st1) => (.error e, st1)
    else (.error .io, st)
  | .subshell sub =>
    if redirs.all (fun kf => w.openOk kf.1 kf.2) then
      let (r, st1) := flatExec w sub st
      (r, ⟨st.env, st1.log⟩)
    else (.error .io, st)
termination_by structural node

end

/-! ## Correspondence between the two AST shapes -/

mutual

/-- Translate a vector-shaped AST into the binary shape: two-child sequences
become binary sequences, pipeline child lists become left-nested binary
pipelines (whose `flatten_pipeline` is the original list); vectors with
fewer than two children have no binary counterpart. -/
def toBin (node : AstNode) : Option AstB :=
  match node with
  | .command c => some (.command c)
  | .pipeline nodes =>
    match toBinList nodes with
    | some (x :: y :: rest) => some (rest.foldl AstB.pipeline (AstB.pipeline x y))
    | _ => none
  | .sequence nodes =>
    match toBinList nodes with
    | some (x :: y :: rest) => some (rest.foldl AstB.sequence (AstB.sequence x y))
    | _ => none
  | .redirect n k f =>
    match toBin n with
    | some b => some (.redirect b k f)
    | none => none
  | .and l r =>
    match toBin l, toBin r with
    | some a, some b => some (.and a b)
    | _, _ => none
  | .or l r =>
    match toBin l, toBin r with
    | some a, some b => some (.or a b)
    | _, _ => none
  | .subshell n =>
    match toBin n with
    | some b => some (.subshell b)
    | none => none
termination_by structural node

def toBinList (nodes : List AstNode) : Option (List AstB) :=
  match nodes with
  | [] => some []
  | n :: rest =>
    match toBin n, toBinList rest with
    | some b, some bs => some (b :: bs)
    | _, _ => none
termination_by structural nodes

end

/-! ## Observable comparison of the two executors -/

/-- The two executors report the same observable result when both succeed
with the same exit status (`Code(n)` against `n`) or both fail with the same
error; an `Exit` outcome has no counterpart in the flatten executor's
`i32`-valued results. -/
def obsMatchB : Except ExecError ExecOutcome → Except ExecError Int → Bool
  | .ok (.code n), .ok m => n == m
  | .error e, .error f => e == f
  | _, _ => false

/-- The command layers of the two executors behave identically: running a
command recursively yields exactly the flatten result wrapped in `Code`,
with the same environment effect. -/
def consistentW (w : CmdWorld) : Prop :=
  ∀ c e, w.runR c e = ((w.runF c e).1.map ExecOutcome.code, (w.runF c e).2)

/-- A command world in which every command succeeds with status `k` and has
no other effect. -/
def cwConst (k : Int) : CmdWorld where
  runR := fun _ e => (.ok (.code k), e)
  runF := fun _ e => (.ok k, e)
  resolve := fun _ => none
  runPiped := fun _ => 0
  openOk := fun _ _ => true
  runStdio := fun _ e => (.ok k, e)

/-- The initial state: empty environment, empty trace. -/
def st0 : RunState := ⟨[], []⟩

/-! ## History (src/history.rs) -/

/-- HistoryManager from src/history.rs. -/
structure HistoryManager where
  entries : List String
  maxLen : Nat
  filePath : Option String
deriving DecidableEq, Repr

/-- Rust `char::is_whitespace` restricted to the ASCII whitespace the shell
ever meets; the history theorems do not depend on the predicate's
extension. -/
def rustIsWhitespace (c : Char) : Bool :=
  c = ' ' || c = '\t' || c = '\n' || c = '\r' || c = '\x0b' || c = '\x0c'

/-- Rust `str::trim`. -/
def rustTrim (s : String) : String :=
  String.mk (((s.data.dropWhile rustIsWhitespace).reverse.dropWhile rustIsWhitespace).reverse)

/-- `HistoryManager::add` (src/history.rs, lines 55-69): skip empty trimmed
lines and consecutive duplicates, push, and drop the oldest entry when the
bound is exceeded. -/
def HistoryManager.add (h : HistoryManager) (line : String) : HistoryManager :=
  let trimmed := rustTrim line
  if trimmed = "" then h
  else if h.entries.getLast? = some trimmed then h
  else
    let es := h.entries ++ [trimmed]
    if es.length > h.maxLen then { h with entries := es.drop 1 }
    else { h with entries := es }

/-- `HistoryManager::load` (src/history.rs, lines 16-41): keep the
non-blank lines of the file and truncate old history to the newest
`max_len` entries.  The file contents are passed as its list of lines. -/
def HistoryManager.load (fileLines : List String) (maxLen : Nat) (path : String) :
    HistoryManager :=
  let entries := fileLines.filter (fun l => rustTrim l ≠ "")
  let entries :=
    if entries.length > maxLen then entries.drop (entries.length - maxLen) else entries
  ⟨entries, maxLen, some path⟩

/-! ## The exit built-in (src/executor/builtin/commands.rs) -/

/-- Rust `i32::from_str`: an optional sign, one or more ASCII digits, and
the value must fit in an `i32`. -/
def parseI32 (s : String) : Option Int :=
  let signDigits : Int × List Char :=
    match s.data with
    | '+' :: rest => (1, rest)
    | '-' :: rest => (-1, rest)
    | rest => (1, rest)
  let ds := signDigits.2
  if ds = [] then none
  else if ¬ ds.all Char.isDigit then none
  else
    let v : Int := signDigits.1 * (ds.foldl (fun a c => a * 10 + (c.toNat - '0'.toNat)) 0 : Nat)
    if -2147483648 ≤ v ∧ v ≤ 2147483647 then some v else none

/-- `ExitCommand::run` (src/executor/builtin/commands.rs, lines 41-53):
`args.get(0).and_then(parse).unwrap_or(0)`, wrapped in `Exit`. -/
def exitRun (args : List String) : Except ExecError ExecOutcome :=
  .ok (.exit (((args.get? 0).bind parseI32).getD 0))

/-- Is the result a success? -/
def exceptIsOk {ε α : Type} : Except ε α → Bool
  | .ok _ => true
  | .error _ => false

/-! ## Helper predicates used by the claim statements -/

/-- No token of the list is a `RedirectAppend`. -/
def noAppendToks (ts : List Token) : Bool :=
  ts.all (fun t => t.kind != .redirectAppend)

/-- No token of a lexing result is a `RedirectAppend`. -/
def lexNoAppend : LexTokens → Bool
  | .tokens ts => noAppendToks ts
  | .truncated ts => noAppendToks ts
  | .panicked => true
  | .fail _ => true

/-- No result of a list-valued lexer step is `some` list with an append
token. -/
def optNoAppend : Option (List Token) → Bool
  | some ts => noAppendToks ts
  | none => true

mutual

/-- Does the AST contain a `Pipeline` node anywhere? -/
def hasPipelineNode (node : AstNode) : Bool :=
  match node with
  | .command _ => false
  | .pipeline _ => true
  | .redirect n _ _ => hasPipelineNode n
  | .sequence cs => hasPipelineList cs
  | .and l r => hasPipelineNode l || hasPipelineNode r
  | .or l r => hasPipelineNode l || hasPipelineNode r
  | .subshell n => hasPipelineNode n
termination_by structural node

def hasPipelineList (nodes : List AstNode) : Bool :=
  match nodes with
  | [] => false
  | n :: rest => hasPipelineNode n || hasPipelineList rest
termination_by structural nodes

end

/-- The Command/And/Or fragment of the AST. -/
def simpleNode : AstNode → Bool
  | .command _ => true
  | .and l r => simpleNode l && simpleNode r
  | .or l r => simpleNode l && simpleNode r
  | _ => false

/-- A world for pipeline runs: every name resolves, and a stage's waited
exit status is 7 for the command named "b" and 0 otherwise. -/
def cwPipe : CmdWorld where
  runR := fun _ e => (.ok (.code 0), e)
  runF := fun _ e => (.ok 0, e)
  resolve := fun n => some n
  runPiped := fun c => if c.name = "b" then 7 else 0
  openOk := fun _ _ => true
  runStdio := fun _ e => (.ok 0, e)

/-! ## Claim theorems -/

/-- C2: the specification claims lexing is total and panic-free for every
UTF-8 input.  The code walks a `Vec<char>` but slices quoted lexemes with
`self.input[start..self.pos]` at char indices taken as byte offsets, and
panics on the 3-character line `"あ"` (byte offset 2 is inside the
3-byte encoding of `あ`).  This theorem evaluates the embedded lexer at
that failing input: `tokenize_all` panics instead of producing a token
list or a `LexError`. -/
theorem c2_lexer_panics_on_quoted_multibyte :
    lexTokenizeAll ['"', 'あ', '"'] = .panicked := by decide

/-- C4 counterexample: on the input `>>` the lexer emits two `RedirectOut`
tokens (and the draft lexer of src/lexer/mod.rs does the same); no
`RedirectAppend` token is emitted, contradicting the claim that `>`
followed by `>` yields a single `RedirectAppend`. -/
theorem c4_counterexample :
    lexTokenizeAll ['>', '>'] =
      .tokens [⟨.redirectOut, ">", (0, 1)⟩, ⟨.redirectOut, ">", (1, 2)⟩, ⟨.eof, "", (2, 2)⟩] ∧
    modTokenize ['>', '>'] =
      some [⟨.redirectOut, ">", (0, 1)⟩, ⟨.redirectOut, ">", (1, 2)⟩, ⟨.eof, "", (2, 2)⟩] := by
  exact ⟨by decide, by decide⟩

/-- C5 counterexample: the parser gives `&&` higher precedence than `||`
(`parse_or` sits above `parse_and`), so the token stream of
`a || b && c` parses to `Or(a, And(b, c))` and not to the claimed
`And(Or(a, b), c)`. -/
theorem c5_counterexample :
    parse [wTok "a", opTok .or "||", wTok "b", opTok .and "&&", wTok "c", opTok .eof ""] =
      .ok (.or (cmdN "a" []) (.and (cmdN "b" []) (cmdN "c" []))) ∧
    (.or (cmdN "a" []) (.and (cmdN "b" []) (cmdN "c" [])) : AstNode) ≠
      .and (.or (cmdN "a" []) (cmdN "b" [])) (cmdN "c" []) := by
  exact ⟨rfl, fun h => AstNode.noConfusion h⟩

/-- C5 amended: `&&` binds tighter than `||` and each operator is
left-associative with itself: `a && b || c` parses to `Or(And(a,b), c)`,
`a || b && c` parses to `Or(a, And(b,c))`, and `a || b || c` parses to
`Or(Or(a,b), c)`, for arbitrary word lexemes. -/
theorem c5_amended_precedence :
    ∀ a b c : String,
      parse [wTok a, opTok .and "&&", wTok b, opTok .or "||", wTok c, opTok .eof ""] =
        .ok (.or (.and (cmdN a []) (cmdN b [])) (cmdN c [])) ∧
      parse [wTok a, opTok .or "||", wTok b, opTok .and "&&", wTok c, opTok .eof ""] =
        .ok (.or (cmdN a []) (.and (cmdN b []) (cmdN c []))) ∧
      parse [wTok a, opTok .or "||", wTok b, opTok .or "||", wTok c, opTok .eof ""] =
        .ok (.or (.or (cmdN a []) (cmdN b [])) (cmdN c [])) :=
  fun _ _ _ => ⟨rfl, rfl, rfl⟩

/-- C6 counterexample: for the token stream of `a < f | b` — a redirection
between two pipe stages — the parser returns `Redirect(Command a, In, f)`:
no `Pipeline` node exists anywhere in the result (and stage `b` is
dropped), contradicting the claim that such a redirection produces a
Redirect node bound to the stage inside the pipeline. -/
theorem c6_counterexample :
    parse [wTok "a", opTok .redirectIn "<", wTok "f", opTok .pipe "|", wTok "b", opTok .eof ""] =
      .ok (.redirect (cmdN "a" []) .rIn "f") ∧
    hasPipelineNode (.redirect (cmdN "a" []) .rIn "f") = false := by
  exact ⟨rfl, rfl⟩

/-- C6 amended: a redirection after the last pipe stage wraps the entire
`Pipeline` node, but a redirection before a `|` is not bound to that stage
inside the pipeline: it terminates the pipeline parse, the redirect wraps
the first stage alone, and the remaining `| stage` tokens are left
unconsumed (and silently ignored by `parse`). -/
theorem c6_amended_redirect_binding :
    ∀ a b f : String,
      parse [wTok a, opTok .pipe "|", wTok b, opTok .redirectOut ">", wTok f, opTok .eof ""] =
        .ok (.redirect (.pipeline [cmdN a [], cmdN b []]) .rOut f) ∧
      parse [wTok a, opTok .redirectIn "<", wTok f, opTok .pipe "|", wTok b, opTok .eof ""] =
        .ok (.redirect (cmdN a []) .rIn f) :=
  fun _ _ _ => ⟨rfl, rfl⟩

/-- C10: `DefaultParser::parse` returns the result of `parse_sequence`
without checking that the next token is `Eof`: whenever `parse_sequence`
succeeds with the leading expression `a` leaving a non-`Eof` token
unconsumed, `parse` still returns `Ok a` — trailing input is silently
ignored and never raises a `ParseError`. -/
theorem c10_parse_ignores_trailing :
    ∀ (ts : List Token) (a : AstNode) (p : Nat),
      parseSequence ts (parseFuel ts) 0 = (.ok a, p) →
      ∀ (hp : p < ts.length), (ts.get ⟨p, hp⟩).kind ≠ .eof →
        parse ts = .ok a := by
  intro ts a p h hp _
  cases ts with
  | nil => simp at hp
  | cons t ts2 => simp [parse, h]

/-- C10 witness: the tokens of `cat < in.txt | wc` parse to
`Redirect(Command cat, In, in.txt)` with the pipe and `wc` ignored. -/
theorem c10_parse_ignores_trailing_witness :
    parse [wTok "cat", opTok .redirectIn "<", wTok "in.txt", opTok .pipe "|", wTok "wc",
        opTok .eof ""] =
      .ok (.redirect (cmdN "cat" []) .rIn "in.txt") := by
  exact c10_parse_ignores_trailing
    [wTok "cat", opTok .redirectIn "<", wTok "in.txt", opTok .pipe "|", wTok "wc", opTok .eof ""]
    (.redirect (cmdN "cat" []) .rIn "in.txt") 3 rfl (by decide) (by decide)

/-- C8 counterexample: `exit` with the non-numeric argument `abc` does not
produce an error — `parse::<i32>().ok()` swallows the failure and
`unwrap_or(0)` turns it into a successful `Exit(0)`. -/
theorem c8_counterexample :
    exitRun ["abc"] = .ok (.exit 0) ∧ exceptIsOk (exitRun ["abc"]) = true := by
  exact ⟨rfl, rfl⟩

/-- C8 amended: `exit` returns `Exit(n)` when the first argument parses as
the i32 `n`, and `Exit(0)` both when there is no argument and when the
first argument does not parse (non-numeric or out of range); a bad
argument is never an error. -/
theorem c8_amended_exit_semantics :
    ∀ args : List String,
      (∀ s n, args.get? 0 = some s → parseI32 s = some n → exitRun args = .ok (.exit n)) ∧
      (args = [] → exitRun args = .ok (.exit 0)) ∧
      (∀ s, args.get? 0 = some s → parseI32 s = none → exitRun args = .ok (.exit 0)) := by
  intro args
  refine ⟨?_, ?_, ?_⟩
  · intro s n hs hn
    simp only [List.get?_eq_getElem?] at hs
    simp [exitRun, hs, hn]
  · intro h
    subst h
    rfl
  · intro s hs hn
    simp only [List.get?_eq_getElem?] at hs
    simp [exitRun, hs, hn]

/-- C8 witness: `exit 7` yields `Exit(7)`, `exit` yields `Exit(0)`, and
`exit xyz` yields `Exit(0)`. -/
theorem c8_amended_exit_semantics_witness :
    exitRun ["7"] = .ok (.exit 7) ∧ exitRun [] = .ok (.exit 0) ∧
      exitRun ["xyz"] = .ok (.exit 0) := by
  exact ⟨(c8_amended_exit_semantics ["7"]).1 "7" 7 rfl (by decide),
    (c8_amended_exit_semantics []).2.1 rfl,
    (c8_amended_exit_semantics ["xyz"]).2.2 "xyz" rfl (by decide)⟩

/-- C7 counterexample: with every command exiting with status 7, both
executors run `And(l, r)`, skip `r` (the trace holds only `l`), and return
the fixed status 1 — not `l`'s actual status 7 as claimed. -/
theorem c7_counterexample :
    recExec (cwConst 7) (.and (cmdN "l" []) (cmdN "r" [])) st0 =
      (.ok (.code 1), ⟨[], [⟨"l", [], .simple⟩]⟩) ∧
    flatExec (cwConst 7) (.and (.command ⟨"l", [], .simple⟩) (.command ⟨"r", [], .simple⟩)) st0 =
      (.ok 1, ⟨[], [⟨"l", [], .simple⟩]⟩) ∧
    (1 : Int) ≠ 7 := by
  exact ⟨rfl, rfl, by decide⟩

/-- C7 amended: for `And(l, r)` both executors run `l`; if its status is 0
they run `r` from the state `l` left and return `r`'s result; otherwise
`r` is not run (the state, including the command trace, stays as `l` left
it) and the returned status is the constant 1, regardless of `l`'s actual
status. -/
theorem c7_amended_and_semantics :
    ∀ (w : CmdWorld) (l r : AstNode) (lb rb : AstB) (st : RunState),
      ((recExec w l st).1 = .ok (.code 0) →
        recExec w (.and l r) st = recExec w r (recExec w l st).2) ∧
      (∀ o, (recExec w l st).1 = .ok o → o ≠ .code 0 →
        recExec w (.and l r) st = (.ok (.code 1), (recExec w l st).2)) ∧
      ((flatExec w lb st).1 = .ok 0 →
        flatExec w (.and lb rb) st = flatExec w rb (flatExec w lb st).2) ∧
      (∀ n, (flatExec w lb st).1 = .ok n → n ≠ 0 →
        flatExec w (.and lb rb) st = (.ok 1, (flatExec w lb st).2)) := by
  intro w l r lb rb st
  refine ⟨?_, ?_, ?_, ?_⟩
  · intro h
    simp only [recExec]
    rcases hR : recExec w l st with ⟨r1, s1⟩
    rw [hR] at h
    simp at h
    subst h
    simp
  · intro o h ho
    simp only [recExec]
    rcases hR : recExec w l st with ⟨r1, s1⟩
    rw [hR] at h
    simp at h
    subst h
    simp [ho]
  · intro h
    simp only [flatExec]
    rcases hF : flatExec w lb st with ⟨r1, s1⟩
    rw [hF] at h
    simp at h
    subst h
    simp
  · intro n h hn
    simp only [flatExec]
    rcases hF : flatExec w lb st with ⟨r1, s1⟩
    rw [hF] at h
    simp at h
    subst h
    simp [hn]

/-- C7 witness: the amended statement applied with every command exiting 7
(left fails with its actual status 7, the executors return the constant 1)
and with every command exiting 0 (right runs). -/
theorem c7_amended_and_semantics_witness :
    recExec (cwConst 7) (.and (cmdN "l" []) (cmdN "r" [])) st0 =
      (.ok (.code 1), (recExec (cwConst 7) (cmdN "l" []) st0).2) ∧
    flatExec (cwConst 7) (.and (.command ⟨"l", [], .simple⟩) (.command ⟨"r", [], .simple⟩)) st0 =
      (.ok 1, (flatExec (cwConst 7) (.command ⟨"l", [], .simple⟩) st0).2) ∧
    recExec (cwConst 0) (.and (cmdN "l" []) (cmdN "r" [])) st0 =
      recExec (cwConst 0) (cmdN "r" []) (recExec (cwConst 0) (cmdN "l" []) st0).2 := by
  refine ⟨?_, ?_, ?_⟩
  · exact (c7_amended_and_semantics (cwConst 7) (cmdN "l" []) (cmdN "r" [])
      (.command ⟨"l", [], .simple⟩) (.command ⟨"r", [], .simple⟩) st0).2.1 (.code 7) rfl
      (by decide)
  · exact (c7_amended_and_semantics (cwConst 7) (cmdN "l" []) (cmdN "r" [])
      (.command ⟨"l", [], .simple⟩) (.command ⟨"r", [], .simple⟩) st0).2.2.2 7 rfl (by decide)
  · exact (c7_amended_and_semantics (cwConst 0) (cmdN "l" []) (cmdN "r" [])
      (.command ⟨"l", [], .simple⟩) (.command ⟨"r", [], .simple⟩) st0).1 rfl

/-- C1 counterexample: with identical command-layer behaviour on both
sides (every command succeeds with status 5 and no environment effect),
the recursive executor runs the two-command sequence to `Code(0)` while
the flatten executor returns the last child's status 5 — the two
executor strategies are observably different on the same expanded AST. -/
theorem c1_counterexample :
    consistentW (cwConst 5) ∧
    toBin (.sequence [cmdN "c" [], cmdN "c" []]) =
      some (.sequence (.command ⟨"c", [], .simple⟩) (.command ⟨"c", [], .simple⟩)) ∧
    obsMatchB
      (recExec (cwConst 5) (.sequence [cmdN "c" [], cmdN "c" []]) st0).1
      (flatExec (cwConst 5)
        (.sequence (.command ⟨"c", [], .simple⟩) (.command ⟨"c", [], .simple⟩)) st0).1 = false := by
  exact ⟨fun _ _ => rfl, rfl, rfl⟩

/-- C3 counterexample: `exec_pipeline_generic` waits for both children but
returns `Ok(0)` even though the last stage exits with status 7; likewise
the recursive executor's pipeline arm returns `Code(0)` when both forked
stages exit 7. -/
theorem c3_counterexample :
    execPipelineGeneric [0, 1] (fun n : Nat => Except.ok (if n = 1 then (7 : Int) else 0)) =
      .ok ⟨[0, 7], 2, 0⟩ ∧
    ([0, 7] : List Int).getLastD 0 = 7 ∧ (0 : Int) ≠ 7 ∧
    recExec (cwConst 7) (.pipeline [cmdN "a" [], cmdN "b" []]) st0 = (.ok (.code 0), st0) ∧
    recChildExits (cwConst 7) [cmdN "a" [], cmdN "b" []] st0 = [7, 7] := by
  exact ⟨rfl, by decide, by decide, rfl, rfl⟩

/-- The wait loop keeps the last status: folding `fun _ s => s` returns the
last element, or the initial value for an empty list. -/
theorem foldl_keep_last (l : List Int) : ∀ a : Int, l.foldl (fun _ s => s) a = l.getLastD a := by
  induction l with
  | nil => intro a; rfl
  | cons x xs ih =>
    intro a
    rw [List.getLastD_cons]
    exact ih x

/-- `flatSpawnAll` returns one waited status per pipeline stage. -/
theorem flatSpawnAll_length (w : CmdWorld) :
    ∀ (ns : List AstB) (sts : List Int), flatSpawnAll w ns = .ok sts → sts.length = ns.length := by
  intro ns
  induction ns with
  | nil => intro sts h; simp [flatSpawnAll] at h; simp [← h]
  | cons n rest ih =>
    intro sts h
    simp only [flatSpawnAll] at h
    rcases hp : prepareCommand w n with e | c <;> rw [hp] at h
    · cases h
    · rcases hr : flatSpawnAll w rest with e2 | sts2 <;> rw [hr] at h
      · cases h
      · cases h
        simpa using ih sts2 hr

/-- C3 amended: both pipeline implementations spawn every stage and wait
for every spawned child in start order; `FlattenExecutor::exec_pipeline`
returns the exit status of the last stage, while
`PipelineHandler::exec_pipeline_generic` (used by the recursive executor)
discards the waited statuses and always returns status 0. -/
theorem c3_amended_pipeline_status :
    (∀ (T : Type) (nodes : List T) (f : T → Except ExecError Int), 2 ≤ nodes.length →
      ∃ pr, execPipelineGeneric nodes f = .ok pr ∧ pr.waited = nodes.length ∧
        pr.childExits.length = nodes.length ∧ pr.ret = 0) ∧
    (∀ (w : CmdWorld) (l r : AstB) (st : RunState) (sts : List Int),
      flatSpawnAll w (flattenPipeline (.pipeline l r)) = .ok sts →
      flatExec w (.pipeline l r) st = (.ok (sts.getLastD 0), st) ∧
      sts.length = (flattenPipeline (.pipeline l r)).length) := by
  constructor
  · intro T nodes f hlen
    unfold execPipelineGeneric
    rw [if_neg (by omega)]
    exact ⟨_, rfl, by simp, by simp, rfl⟩
  · intro w l r st sts h
    constructor
    · simp only [flatExec, h, lastStatus]
      rw [foldl_keep_last]
    · exact flatSpawnAll_length w _ sts h

/-- C3 witness: a concrete two-stage pipeline for each implementation —
the generic handler returns 0, the flatten executor returns the last
stage's status 7. -/
theorem c3_amended_pipeline_status_witness :
    (∃ pr, execPipelineGeneric [0, 1] (fun _ : Nat => Except.ok (5 : Int)) = .ok pr ∧
      pr.waited = 2 ∧ pr.childExits.length = 2 ∧ pr.ret = 0) ∧
    flatExec cwPipe (.pipeline (.command ⟨"a", [], .simple⟩) (.command ⟨"b", [], .simple⟩)) st0 =
      (.ok 7, st0) := by
  constructor
  · exact c3_amended_pipeline_status.1 Nat [0, 1] (fun _ => .ok 5) (by decide)
  · exact (c3_amended_pipeline_status.2 cwPipe (.command ⟨"a", [], .simple⟩)
      (.command ⟨"b", [], .simple⟩) st0 [0, 7] rfl).1

/-! ## History lemmas -/

theorem hist_add_maxLen (h : HistoryManager) (s : String) : (h.add s).maxLen = h.maxLen := by
  unfold HistoryManager.add
  dsimp only
  split_ifs <;> rfl

theorem hist_add_len (h : HistoryManager) (s : String)
    (hle : h.entries.length ≤ h.maxLen) : (h.add s).entries.length ≤ h.maxLen := by
  unfold HistoryManager.add
  dsimp only
  split_ifs with h1 h2 h3
  · exact hle
  · exact hle
  · simp at h3 ⊢
    omega
  · simp at h3 ⊢
    omega

theorem hist_load_len (lines : List String) (maxLen : Nat) (path : String) :
    (HistoryManager.load lines maxLen path).entries.length ≤ maxLen := by
  unfold HistoryManager.load
  dsimp only
  split_ifs with h1
  · rw [List.length_drop]
    omega
  · omega

theorem hist_fold_len (ops : List String) :
    ∀ h : HistoryManager, h.entries.length ≤ h.maxLen →
      (ops.foldl HistoryManager.add h).entries.length ≤ h.maxLen := by
  induction ops with
  | nil => intro h hh; simpa using hh
  | cons s rest ih =>
    intro h hh
    have h1 : (h.add s).entries.length ≤ (h.add s).maxLen := by
      rw [hist_add_maxLen]
      exact hist_add_len h s hh
    have h2 := ih (h.add s) h1
    rw [hist_add_maxLen] at h2
    simpa using h2

theorem getLast?_append_drop (l : List String) (a : String) :
    ((l ++ [a]).drop 1).getLast? = if l = [] then none else some a := by
  cases l with
  | nil => rfl
  | cons x xs => simp [List.getLast?_concat]

theorem hist_add_idem (h : HistoryManager) (s : String) : (h.add s).add s = h.add s := by
  by_cases ht : rustTrim s = ""
  · simp [HistoryManager.add, ht]
  · by_cases hl : h.entries.getLast? = some (rustTrim s)
    · have e1 : h.add s = h := by simp [HistoryManager.add, ht, hl]
      rw [e1]
      exact e1
    · by_cases hm : (h.entries ++ [rustTrim s]).length > h.maxLen
      · have e1 : h.add s = { h with entries := (h.entries ++ [rustTrim s]).drop 1 } := by
          unfold HistoryManager.add
          dsimp only
          rw [if_neg ht, if_neg hl, if_pos hm]
        rw [e1]
        cases hE : h.entries with
        | nil =>
          have hm0 : h.maxLen = 0 := by
            rw [hE] at hm
            simpa using hm
          simp [HistoryManager.add, ht, hE, hm0]
        | cons a as =>
          simp [HistoryManager.add, ht, hE, List.getLast?_concat]
      · have e1 : h.add s = { h with entries := h.entries ++ [rustTrim s] } := by
          unfold HistoryManager.add
          dsimp only
          rw [if_neg ht, if_neg hl, if_neg hm]
        rw [e1]
        simp [HistoryManager.add, ht, List.getLast?_concat]

/-- C9: after `HistoryManager::load` followed by any sequence of `add`
calls the entry count never exceeds `history_max`, and two consecutive
`add` calls with the same line leave the history exactly as a single call
does (the duplicate is coalesced). -/
theorem c9_history_invariants :
    (∀ (lines : List String) (maxLen : Nat) (path : String) (ops : List String),
      (ops.foldl HistoryManager.add (HistoryManager.load lines maxLen path)).entries.length ≤
        maxLen) ∧
    (∀ (h : HistoryManager) (s : String), (h.add s).add s = h.add s) := by
  constructor
  · intro lines maxLen path ops
    exact hist_fold_len ops (HistoryManager.load lines maxLen path)
      (hist_load_len lines maxLen path)
  · exact hist_add_idem

/-! ## C4 lemmas: no token the lexers emit is a `RedirectAppend` -/

theorem noAppendToks_append (a b : List Token) :
    noAppendToks (a ++ b) = (noAppendToks a && noAppendToks b) := by
  simp [noAppendToks]

theorem pipeArm_no_append (rest : List Char) (pos : Nat) :
    ∀ t p, pipeArm rest pos = .emit t p → t.kind ≠ .redirectAppend := by
  intro t p h
  unfold pipeArm at h
  split_ifs at h <;> (cases h; simp)

theorem ampArm_no_append (rest : List Char) (pos : Nat) :
    ∀ t p, ampArm rest pos = .emit t p → t.kind ≠ .redirectAppend := by
  intro t p h
  unfold ampArm at h
  split_ifs at h <;> (cases h; simp)

theorem opArm_no_append (k : TokenKind) (lex : String) (pos : Nat)
    (hk : k ≠ .redirectAppend) :
    ∀ t p, opArm k lex pos = .emit t p → t.kind ≠ .redirectAppend := by
  intro t p h
  cases h
  simpa using hk

theorem quoteArm_no_append (chars rest : List Char) (pos : Nat) (q : Char) :
    ∀ t p, quoteArm chars rest pos q = .emit t p → t.kind ≠ .redirectAppend := by
  intro t p h
  unfold quoteArm at h
  split at h
  · split at h
    · cases h; simp
    · cases h
  · cases h

theorem flushOr_no_append (buf : List Char) (ts pos : Nat) (tok : NextTok)
    (htok : ∀ t p, tok = .emit t p → t.kind ≠ .redirectAppend) :
    ∀ t p, flushOr buf ts pos tok = .emit t p → t.kind ≠ .redirectAppend := by
  intro t p h
  unfold flushOr at h
  split_ifs at h
  · cases h; simp
  · exact htok t p h

set_option maxHeartbeats 1600000 in
theorem nextTokenLoop_no_append (chars : List Char) :
    ∀ (rest : List Char) (pos : Nat) (buf : List Char) (ts : Nat) (t : Token) (p : Nat),
      nextTokenLoop chars rest pos buf ts = .emit t p → t.kind ≠ .redirectAppend := by
  intro rest
  induction rest with
  | nil =>
    intro pos buf ts t p h
    simp only [nextTokenLoop] at h
    split_ifs at h <;> cases h <;> simp
  | cons c rest ih =>
    intro pos buf ts t p h
    simp only [nextTokenLoop] at h
    split_ifs at h <;>
      first
        | exact ih _ _ _ _ _ h
        | (cases h; simp)
        | exact flushOr_no_append _ _ _ _ (pipeArm_no_append _ _) _ _ h
        | exact flushOr_no_append _ _ _ _ (ampArm_no_append _ _) _ _ h
        | exact flushOr_no_append _ _ _ _
            (opArm_no_append .redirectOut ">" _ (by simp)) _ _ h
        | exact flushOr_no_append _ _ _ _
            (opArm_no_append .redirectIn "<" _ (by simp)) _ _ h
        | exact flushOr_no_append _ _ _ _
            (opArm_no_append .semicolon ";" _ (by simp)) _ _ h
        | exact flushOr_no_append _ _ _ _
            (opArm_no_append .lparen "(" _ (by simp)) _ _ h
        | exact flushOr_no_append _ _ _ _
            (opArm_no_append .rparen ")" _ (by simp)) _ _ h
        | exact quoteArm_no_append _ _ _ _ _ _ h

theorem tokenizeAllFuel_no_append (chars : List Char) :
    ∀ (fuel pos : Nat), lexNoAppend (tokenizeAllFuel chars fuel pos) = true := by
  intro fuel
  induction fuel with
  | zero => intro pos; rfl
  | succ f ih =>
    intro pos
    cases hN : nextToken chars pos with
    | panicked => simp [tokenizeAllFuel, hN, lexNoAppend]
    | fail e => simp [tokenizeAllFuel, hN, lexNoAppend]
    | nothing q => simp [tokenizeAllFuel, hN, lexNoAppend, noAppendToks]
    | emit t q =>
      have ht : t.kind ≠ .redirectAppend := by
        unfold nextToken at hN
        exact nextTokenLoop_no_append chars (chars.drop pos) pos [] pos t q hN
      by_cases he : t.kind = .eof
      · simp [tokenizeAllFuel, hN, he, lexNoAppend, noAppendToks, ht]
      · have hres := ih q
        cases hR : tokenizeAllFuel chars f q with
        | panicked => simp [tokenizeAllFuel, hN, he, hR, lexNoAppend]
        | fail e => simp [tokenizeAllFuel, hN, he, hR, lexNoAppend]
        | tokens ts =>
          rw [hR] at hres
          simp only [lexNoAppend, noAppendToks] at hres
          simp [tokenizeAllFuel, hN, he, hR, lexNoAppend, noAppendToks, ht, hres]
        | truncated ts =>
          rw [hR] at hres
          simp only [lexNoAppend, noAppendToks] at hres
          simp [tokenizeAllFuel, hN, he, hR, lexNoAppend, noAppendToks, ht, hres]

theorem flushWord_no_append (acc : List Token) (buf : List Char) (ts pos : Nat)
    (h : noAppendToks acc = true) : noAppendToks (flushWord acc buf ts pos) = true := by
  unfold flushWord
  split_ifs
  · rw [noAppendToks_append, h]
    simp [noAppendToks]
  · exact h

theorem modPipeStep_no_append (rs : List Char) (pos : Nat) :
    (modPipeStep rs pos).1.kind ≠ .redirectAppend := by
  unfold modPipeStep
  split <;> simp

theorem modAmpStep_no_append (rs : List Char) (pos : Nat) :
    noAppendToks (modAmpStep rs pos).1 = true := by
  unfold modAmpStep
  split <;> simp [noAppendToks]

theorem noAppendToks_singleton (t : Token) (h : t.kind ≠ .redirectAppend) :
    noAppendToks [t] = true := by
  simp [noAppendToks, h]

set_option maxHeartbeats 1600000 in
theorem modTokenizeLoop_no_append :
    ∀ (fuel : Nat) (rest : List Char) (pos : Nat) (buf : List Char) (ts : Nat)
      (acc : List Token), noAppendToks acc = true →
      optNoAppend (modTokenizeLoop fuel rest pos buf ts acc) = true := by
  intro fuel
  induction fuel with
  | zero => intros; rfl
  | succ f ih =>
    intro rest pos buf ts acc hacc
    cases rest with
    | nil =>
      simp only [modTokenizeLoop, optNoAppend]
      rw [noAppendToks_append, flushWord_no_append _ _ _ _ hacc,
        noAppendToks_singleton _ (by simp)]
      rfl
    | cons c rs =>
      simp only [modTokenizeLoop]
      split_ifs
      · exact ih _ _ _ _ _ (flushWord_no_append _ _ _ _ hacc)
      · exact ih _ _ _ _ _ (by
          rw [noAppendToks_append, flushWord_no_append _ _ _ _ hacc,
            noAppendToks_singleton _ (modPipeStep_no_append rs pos)]
          rfl)
      · exact ih _ _ _ _ _ (by
          rw [noAppendToks_append, flushWord_no_append _ _ _ _ hacc, modAmpStep_no_append]
          rfl)
      · exact ih _ _ _ _ _ (by
          rw [noAppendToks_append, flushWord_no_append _ _ _ _ hacc,
            noAppendToks_singleton _ (by simp)]
          rfl)
      · exact ih _ _ _ _ _ (by
          rw [noAppendToks_append, flushWord_no_append _ _ _ _ hacc,
            noAppendToks_singleton _ (by simp)]
          rfl)
      · exact ih _ _ _ _ _ (by
          rw [noAppendToks_append, flushWord_no_append _ _ _ _ hacc,
            noAppendToks_singleton _ (by simp)]
          rfl)
      · exact ih _ _ _ _ _ (by
          rw [noAppendToks_append, flushWord_no_append _ _ _ _ hacc,
            noAppendToks_singleton _ (by simp)]
          rfl)
      · exact ih _ _ _ _ _ (by
          rw [noAppendToks_append, flushWord_no_append _ _ _ _ hacc,
            noAppendToks_singleton _ (by simp)]
          rfl)
      · exact ih _ _ _ _ _ (by
          rw [noAppendToks_append, hacc, noAppendToks_singleton _ (by simp)]
          rfl)
      · exact ih _ _ _ _ _ (by
          rw [noAppendToks_append, hacc, noAppendToks_singleton _ (by simp)]
          rfl)
      · exact ih _ _ _ _ _ hacc
      · exact ih _ _ _ _ _ hacc

/-- C4 amended: a `>` always lexes to `RedirectOut`, even when immediately
followed by another `>` (so `>>` yields two consecutive `RedirectOut`
tokens); neither the main lexer nor the
draft lexer of src/lexer/mod.rs ever emits a `RedirectAppend` token. -/
theorem c4_amended_no_redirect_append :
    (∀ chars : List Char, lexNoAppend (lexTokenizeAll chars) = true) ∧
    (∀ chars : List Char, optNoAppend (modTokenize chars) = true) ∧
    (∀ (chars rest : List Char) (pos ts : Nat),
      nextTokenLoop chars ('>' :: rest) pos [] ts =
        .emit ⟨.redirectOut, ">", (pos, pos + 1)⟩ (pos + 1)) := by
  refine ⟨?_, ?_, ?_⟩
  · intro chars
    exact tokenizeAllFuel_no_append chars (chars.length + 1) 0
  · intro chars
    exact modTokenizeLoop_no_append (chars.length + 1) chars 0 [] 0 [] rfl
  · intro chars rest pos ts
    rfl

/-- Inversion of a successful observable match: both sides succeed with
the same status, or both fail with the same error. -/
theorem obsMatchB_true_cases {r1 : Except ExecError ExecOutcome} {r2 : Except ExecError Int}
    (h : obsMatchB r1 r2 = true) :
    (∃ n, r1 = .ok (.code n) ∧ r2 = .ok n) ∨ (∃ e, r1 = .error e ∧ r2 = .error e) := by
  cases r1 with
  | ok o =>
    cases o with
    | code n =>
      cases r2 with
      | ok m =>
        left
        refine ⟨n, rfl, ?_⟩
        simp only [obsMatchB, beq_iff_eq] at h
        rw [h]
      | error f => simp [obsMatchB] at h
    | exit n => cases r2 <;> simp [obsMatchB] at h
  | error e =>
    cases r2 with
    | ok m => simp [obsMatchB] at h
    | error f =>
      right
      refine ⟨e, rfl, ?_⟩
      simp only [obsMatchB, beq_iff_eq] at h
      rw [h]

/-- C1 amended: the two executor strategies are observationally equivalent
only on the Command/And/Or fragment of the AST: given identical
command-layer behaviour, the recursive and the flatten executor produce
matching results and identical final states there (a two-command sequence already separates the strategies, and the
recursive executor rejects every `Subshell` while the flatten executor
runs it). -/
theorem c1_amended_fragment_equivalence (w : CmdWorld) (hw : consistentW w) :
    ∀ (a : AstNode) (b : AstB) (st : RunState), simpleNode a = true → toBin a = some b →
      obsMatchB (recExec w a st).1 (flatExec w b st).1 = true ∧
      (recExec w a st).2 = (flatExec w b st).2
  | .command c, b, st, _, hb => by
    simp only [toBin, Option.some.injEq] at hb
    subst hb
    have hc := hw c st.env
    rcases hF : w.runF c st.env with ⟨rf, ef⟩
    rw [hF] at hc
    simp only [recExec, flatExec, hc, hF]
    cases rf with
    | ok n => exact ⟨by simp [obsMatchB, Except.map], by trivial⟩
    | error e => exact ⟨by simp [obsMatchB, Except.map], by trivial⟩
  | .and l r, b, st, hs, hb => by
    simp only [simpleNode, Bool.and_eq_true] at hs
    obtain ⟨hsl, hsr⟩ := hs
    simp only [toBin] at hb
    rcases hbl : toBin l with _ | bl <;> rw [hbl] at hb
    · simp at hb
    · rcases hbr : toBin r with _ | br <;> rw [hbr] at hb
      · simp at hb
      · simp only [Option.some.injEq] at hb
        subst hb
        have IH1 := c1_amended_fragment_equivalence w hw l bl st hsl hbl
        rcases hR : recExec w l st with ⟨r1, s1⟩
        rcases hFl : flatExec w bl st with ⟨r2, s2⟩
        rw [hR, hFl] at IH1
        obtain ⟨hm, hsEq⟩ := IH1
        dsimp only at hm hsEq
        subst hsEq
        rcases obsMatchB_true_cases hm with ⟨n, e1, e2⟩ | ⟨e, e1, e2⟩
        · subst e1
          subst e2
          by_cases hn : n = 0
          · subst hn
            have IH2 := c1_amended_fragment_equivalence w hw r br s1 hsr hbr
            simp only [recExec, flatExec, hR, hFl]
            simpa using IH2
          · simp only [recExec, flatExec, hR, hFl]
            simp [hn, obsMatchB]
        · subst e1
          subst e2
          simp only [recExec, flatExec, hR, hFl]
          simp [obsMatchB]
  | .or l r, b, st, hs, hb => by
    simp only [simpleNode, Bool.and_eq_true] at hs
    obtain ⟨hsl, hsr⟩ := hs
    simp only [toBin] at hb
    rcases hbl : toBin l with _ | bl <;> rw [hbl] at hb
    · simp at hb
    · rcases hbr : toBin r with _ | br <;> rw [hbr] at hb
      · simp at hb
      · simp only [Option.some.injEq] at hb
        subst hb
        have IH1 := c1_amended_fragment_equivalence w hw l bl st hsl hbl
        rcases hR : recExec w l st with ⟨r1, s1⟩
        rcases hFl : flatExec w bl st with ⟨r2, s2⟩
        rw [hR, hFl] at IH1
        obtain ⟨hm, hsEq⟩ := IH1
        dsimp only at hm hsEq
        subst hsEq
        rcases obsMatchB_true_cases hm with ⟨n, e1, e2⟩ | ⟨e, e1, e2⟩
        · subst e1
          subst e2
          by_cases hn : n = 0
          · subst hn
            simp only [recExec, flatExec, hR, hFl]
            simp [obsMatchB]
          · have IH2 := c1_amended_fragment_equivalence w hw r br s1 hsr hbr
            simp only [recExec, flatExec, hR, hFl]
            simp only [ne_eq, hn, not_false_iff, if_true]
            simpa [hn] using IH2
        · subst e1
          subst e2
          simp only [recExec, flatExec, hR, hFl]
          simp [obsMatchB]
  | .pipeline cs, _, _, hs, _ => by simp [simpleNode] at hs
  | .sequence cs, _, _, hs, _ => by simp [simpleNode] at hs
  | .redirect n k f, _, _, hs, _ => by simp [simpleNode] at hs
  | .subshell n, _, _, hs, _ => by simp [simpleNode] at hs

/-- C1 witness: the amended equivalence applied to `And` of two commands
under a world where every command exits 3. -/
theorem c1_amended_fragment_equivalence_witness :
    obsMatchB (recExec (cwConst 3) (.and (cmdN "x" []) (cmdN "y" [])) st0).1
      (flatExec (cwConst 3)
        (.and (.command ⟨"x", [], .simple⟩) (.command ⟨"y", [], .simple⟩)) st0).1 = true ∧
    (recExec (cwConst 3) (.and (cmdN "x" []) (cmdN "y" [])) st0).2 =
      (flatExec (cwConst 3)
        (.and (.command ⟨"x", [], .simple⟩) (.command ⟨"y", [], .simple⟩)) st0).2 := by
  exact c1_amended_fragment_equivalence (cwConst 3) (fun _ _ => rfl)
    (.and (cmdN "x" []) (cmdN "y" []))
    (.and (.command ⟨"x", [], .simple⟩) (.command ⟨"y", [], .simple⟩)) st0 rfl rfl

end TinyShell
